import Mathlib

/-!
Verification of the FAHMunge merge/derive engine (`FAHMunge/fah.py`).

The Python source is shallowly embedded: stores are records of a frame list,
a ledger (the `processed_filenames` / `processed_directories` /
`processed_folders` earray) and a topology; the merge loops of
`concatenate_core17`, `concatenate_core17_filenames` and `concatenate_ocore`
become a recursive function over the ordered unit list that threads the store
state, the printed log, the write/append event trace and the propagated
exception; `strip_water` becomes a function from the two (optional) stores to
an outcome value that records exactly which exit path the code took and the
derived store's state at that point.
-/

namespace FAHMunge

/-! ## Natural sort key (`keynat`, fah.py lines 40-60) -/

/-- Element of a `keynat` sort key: Python builds a heterogeneous list whose
elements are either accumulated integers or single characters. -/
inductive Tok where
  | num : Nat → Tok
  | ch : Char → Tok
deriving DecidableEq, Repr

/-- Value of an ASCII decimal digit, as `int(c)` produces for it. -/
def digitVal (c : Char) : Nat := c.toNat - 48

/-- Loop of `keynat`.  The Python list `r` is kept reversed here so that the
update of `r[-1]` is an update of the head.  For a digit `c`, `int(c)`
succeeds and `r[-1] = r[-1] * 10 + c` succeeds exactly when `r` is nonempty
and its last element is an integer (on a string it raises, and the bare
`except` appends a fresh integer); a non-digit raises in `int(c)` and is
appended as a character. -/
def keynatAux : List Char → List Tok → List Tok
  | [], r => r.reverse
  | c :: cs, r =>
    if c.isDigit then
      match r with
      | Tok.num n :: rest => keynatAux cs (Tok.num (n * 10 + digitVal c) :: rest)
      | [] => keynatAux cs [Tok.num (digitVal c)]
      | Tok.ch a :: rest => keynatAux cs (Tok.num (digitVal c) :: Tok.ch a :: rest)
    else
      keynatAux cs (Tok.ch c :: r)

/-- The `keynat` sort key of fah.py lines 40-60. -/
def keynat (s : String) : List Tok := keynatAux s.data []

/-- Modelled from the spec's description of the comparator ("tokenize each
string into a sequence of maximal numeric runs and maximal non-numeric runs"
where "embedded multi-digit numeric runs compare by numeric value"): an
explicit maximal-digit-run tokenizer.  The accumulator holds the value of the
numeric run currently being read. -/
def specTokenizeGo : List Char → Option Nat → List Tok
  | [], none => []
  | [], some n => [Tok.num n]
  | c :: cs, none =>
    if c.isDigit then specTokenizeGo cs (some (digitVal c))
    else Tok.ch c :: specTokenizeGo cs none
  | c :: cs, some n =>
    if c.isDigit then specTokenizeGo cs (some (n * 10 + digitVal c))
    else Tok.num n :: Tok.ch c :: specTokenizeGo cs none

/-- Spec-side tokenization of a whole identifier. -/
def specTokenize (s : String) : List Tok := specTokenizeGo s.data none

/-- Python comparison of two key elements: integers compare by value,
characters by code point, and an integer sorts before a character (the
doctest `['1', '9', '10', 'Z', 'a']` shows the mixed-type ordering). -/
def tokLt : Tok → Tok → Bool
  | Tok.num m, Tok.num n => m < n
  | Tok.num _, Tok.ch _ => true
  | Tok.ch _, Tok.num _ => false
  | Tok.ch a, Tok.ch b => a < b

/-- Python lexicographic comparison of two key lists: the first position where
the elements differ decides, and a strict prefix sorts first. -/
def keyLt : List Tok → List Tok → Bool
  | _, [] => false
  | [], _ :: _ => true
  | a :: as, b :: bs => tokLt a b || (!tokLt b a && keyLt as bs)

/-- Comparison of two identifiers by their `keynat` keys, as
`sorted(filenames, key=keynat)` compares them. -/
def keynatLt (a b : String) : Bool := keyLt (keynat a) (keynat b)

/-- Stable insertion into a sorted list: the new element (earlier in the
original order) goes before every element it does not strictly exceed. -/
def insertSorted (lt : α → α → Bool) (a : α) : List α → List α
  | [] => [a]
  | b :: bs => if lt b a then b :: insertSorted lt a bs else a :: b :: bs

/-- Python's `sorted`: a stable sort by the given strict comparison. -/
def pySorted (lt : α → α → Bool) (l : List α) : List α :=
  l.foldr (insertSorted lt) []

/-- Head-integer view of the reversed Python list: `keynatAux` accumulates
into the head exactly when it is an integer. -/
def headNum : List Tok → Option Nat × List Tok
  | [] => (none, [])
  | Tok.num n :: rest => (some n, rest)
  | Tok.ch a :: rest => (none, Tok.ch a :: rest)

theorem keynatAux_eq_specTokenizeGo (cs : List Char) :
    ∀ r : List Tok,
      keynatAux cs r = (headNum r).2.reverse ++ specTokenizeGo cs (headNum r).1 := by
  induction cs with
  | nil =>
    intro r
    match r with
    | [] => rfl
    | Tok.num n :: rest => simp [keynatAux, headNum, specTokenizeGo]
    | Tok.ch c :: rest => simp [keynatAux, headNum, specTokenizeGo]
  | cons c cs ih =>
    intro r
    by_cases hd : c.isDigit
    · match r with
      | [] =>
        simp only [keynatAux, hd, if_true, headNum]
        rw [ih]
        simp [headNum, specTokenizeGo, hd]
      | Tok.num n :: rest =>
        simp only [keynatAux, hd, if_true, headNum]
        rw [ih]
        simp [headNum, specTokenizeGo, hd]
      | Tok.ch a :: rest =>
        simp only [keynatAux, hd, if_true, headNum]
        rw [ih]
        simp [headNum, specTokenizeGo, hd]
    · match r with
      | [] =>
        simp only [keynatAux, hd, Bool.false_eq_true, if_false, headNum]
        rw [ih]
        simp [headNum, specTokenizeGo, hd]
      | Tok.num n :: rest =>
        simp only [keynatAux, hd, Bool.false_eq_true, if_false, headNum]
        rw [ih]
        simp [headNum, specTokenizeGo, hd]
      | Tok.ch a :: rest =>
        simp only [keynatAux, hd, Bool.false_eq_true, if_false, headNum]
        rw [ih]
        simp [headNum, specTokenizeGo, hd]

theorem keynat_eq_specTokenize (s : String) : keynat s = specTokenize s := by
  have h := keynatAux_eq_specTokenizeGo s.data []
  simpa [keynat, specTokenize, headNum] using h

/-! ## Data model: frames and HDF5 trajectory stores -/

/-- One frame of an HDF5 trajectory.  `read()` (fah.py line 143) returns the
nine per-frame fields; the coordinate array of one frame is abstracted to one
scalar per atom, and the remaining geometry fields to single scalars.  Fields
that a write call omits are stored as absent (`none`). -/
structure Frame where
  xyz : List Int
  time : Int
  cell_lengths : Int
  cell_angles : Int
  velocities : Option (List Int) := none
  kineticEnergy : Option Int := none
  potentialEnergy : Option Int := none
  temperature : Option Int := none
  alchemicalLambda : Option Int := none
deriving DecidableEq, Repr, Inhabited

/-- An HDF5 trajectory store: the frame sequence, the ledger earray (its
pytables node name and its entries) and the topology (abstracted to a list of
atom identifiers). -/
structure Store where
  frames : List Frame
  processed : List String
  ledgerName : String
  topology : List Nat
deriving DecidableEq, Repr

/-- Effect of `trj_file.write(coordinates=frame.xyz, cell_lengths=...,
cell_angles=..., time=frame.time)` (fah.py lines 192, 249, 303): only the
four passed fields are stored; velocities, energies, temperature and the
alchemical lambda are not passed and are absent in the stored frame. -/
def hdf5WriteFields (f : Frame) : Frame :=
  { xyz := f.xyz, time := f.time, cell_lengths := f.cell_lengths,
    cell_angles := f.cell_angles }

/-- Opening `HDF5TrajectoryFile(output_filename, mode='a')` followed by the
guarded initialization (fah.py lines 173-179, 229-235, 286-292, 107-113):
an absent file is created empty with the ledger earray `key` and the given
topology; on an existing file `_create_earray` raises `NodeError` when the
node `key` already exists and the `except` ignores it, leaving the store
untouched; if the existing file lacks the node `key`, a fresh empty earray
named `key` is created (any earray under another name is no longer consulted)
while the topology setter's `NodeError` on the already-present topology node
is swallowed by the same `except`. -/
def openAppendInit (output : Option Store) (key : String) (top : List Nat) : Store :=
  match output with
  | none => { frames := [], processed := [], ledgerName := key, topology := top }
  | some st =>
    if st.ledgerName = key then st
    else { st with ledgerName := key, processed := [] }

/-! ## Fragment merge engine (the shared loop of `concatenate_core17`
lines 181-194, `concatenate_core17_filenames` lines 238-254 and
`concatenate_ocore` lines 294-305) -/

/-- Observable store operations performed by the merge loop, in order:
one `trj_file.write(...)` per frame of the loaded unit, then one
`processed_*.append([identifier])`. -/
inductive Event where
  | writeFrame : String → Frame → Event
  | ledgerAppend : String → Event
deriving DecidableEq, Repr

/-- Result of running the merge loop: the store state, the printed progress
lines in order, the store-operation trace in order, and the exception that
aborted the loop, if any, as the pair (unit being processed, message). -/
structure RunResult where
  store : Store
  log : List String
  events : List Event
  err : Option (String × String)
deriving DecidableEq, Repr

/-- The merge loop shared by the three concatenation functions.  Per unit in
order: if the identifier is in the ledger earray, print and `continue`;
otherwise print `Processing ...`, load the unit's frames via the collaborator
(`tarfile.open` / `archive.extract` / `md.load`, which may raise — the raise
propagates and aborts the loop), write each frame (only coordinates, cell
lengths, cell angles and time are passed), then append the identifier to the
ledger earray. -/
def runUnits (loader : String → Except String (List Frame)) :
    List String → Store → RunResult
  | [], st => { store := st, log := [], events := [], err := none }
  | f :: fs, st =>
    if f ∈ st.processed then
      let r := runUnits loader fs st
      { r with log := ("Already processed " ++ f) :: r.log }
    else
      match loader f with
      | Except.error e =>
        { store := st, log := ["Processing " ++ f], events := [], err := some (f, e) }
      | Except.ok trj =>
        let st' : Store :=
          { st with frames := st.frames ++ trj.map hdf5WriteFields,
                    processed := st.processed ++ [f] }
        let r := runUnits loader fs st'
        { r with
          log := ("Processing " ++ f) :: r.log,
          events := (trj.map (fun fr => Event.writeFrame f (hdf5WriteFields fr)) ++
            [Event.ledgerAppend f]) ++ r.events }

/-- Result of a whole concatenation call: the output store is optional
because when the discovered unit list is empty the function returns before
`HDF5TrajectoryFile(output_filename, mode='a')` ever runs, so an absent
output file stays absent. -/
structure MergeResult where
  store : Option Store
  log : List String
  events : List Event
  err : Option (String × String)
deriving DecidableEq, Repr

/-- Embedding of `concatenate_core17` (fah.py lines 149-194).  The glob over
`results-*.tar.bz2` is an external collaborator and enters as the list of
matching paths; the function sorts it with `keynat`, returns if it is empty,
opens/initializes the output store and runs the merge loop. -/
def concatenate_core17 (glob_results : List String)
    (loader : String → Except String (List Frame)) (top : List Nat)
    (output : Option Store) : MergeResult :=
  let filenames := pySorted keynatLt glob_results
  if filenames.length ≤ 0 then
    { store := output, log := [], events := [], err := none }
  else
    let trj_file := openAppendInit output "processed_filenames" top
    let r := runUnits loader filenames trj_file
    { store := some r.store, log := r.log, events := r.events, err := r.err }

/-- Embedding of `concatenate_core17_filenames` (fah.py lines 196-260): same
discovery, guard and loop as `concatenate_core17`, but the loop is wrapped in
`try ... except RuntimeError`, and the handler's
`print("Cannot munge RUN%d CLONE%d due to damaged XTC." % (run, clone))`
references variables `run` and `clone` that are not in scope, so the handler
itself raises `NameError`; the abort's unit identifier is kept in the first
component of `err` as model bookkeeping (the real `NameError` does not carry
it). -/
def concatenate_core17_filenames (glob_results : List String)
    (loader : String → Except String (List Frame)) (top : List Nat)
    (output : Option Store) : MergeResult :=
  let filenames := pySorted keynatLt glob_results
  if filenames.length ≤ 0 then
    { store := output, log := [], events := [], err := none }
  else
    let trj_file := openAppendInit output "processed_filenames" top
    let r := runUnits loader filenames trj_file
    match r.err with
    | none => { store := some r.store, log := r.log, events := r.events, err := none }
    | some (f, _) =>
      { store := some r.store, log := r.log, events := r.events,
        err := some (f, "NameError: name run is not defined") }

/-- Python `int(...)` on a string of ASCII decimal digits. -/
def pyInt (s : String) : Nat := s.data.foldl (fun a c => a * 10 + digitVal c) 0

/-- Embedding of `concatenate_ocore` (fah.py lines 262-305).  `os.listdir`
enters as the list of folder names; they are sorted by pure integer value,
prefixed with the stream path, and fed to the same skip/write/append loop,
with the ledger earray named `processed_folders`. -/
def concatenate_ocore (path : String) (listing : List String)
    (loader : String → Except String (List Frame)) (top : List Nat)
    (output : Option Store) : MergeResult :=
  let sorted_folders := pySorted (fun a b => pyInt a < pyInt b) listing
  let sorted_folders := sorted_folders.map (fun folder => path ++ "/" ++ folder)
  if sorted_folders.length ≤ 0 then
    { store := output, log := [], events := [], err := none }
  else
    let trj_file := openAppendInit output "processed_folders" top
    let r := runUnits loader sorted_folders trj_file
    { store := some r.store, log := r.log, events := r.events, err := r.err }

/-! ## Subset derivation (`strip_water`, fah.py lines 67-147) -/

/-- Ledger-key detection of fah.py lines 100-105: `processed_filenames`
(Core17/Core18 data) is checked first, then `processed_directories`
(Siegetank data); any other store (for instance one produced by
`concatenate_ocore`, whose earray is `processed_folders`) has no recognized
key and `strip_water` raises `ValueError`. -/
def ledgerKeyOf (st : Store) : Option String :=
  if st.ledgerName = "processed_filenames" then some "processed_filenames"
  else if st.ledgerName = "processed_directories" then some "processed_directories"
  else none

/-- `trj_allatom.topology.subset(protein_atom_indices)` abstracted on the
atom-identifier list. -/
def subsetTop (top : List Nat) (idx : List Nat) : List Nat :=
  idx.map (fun i => top.getD i 0)

/-- `coordinates[:, protein_atom_indices]` together with the write call of
fah.py line 144: the new frame keeps time, cell lengths and cell angles, its
coordinates are the source coordinates gathered at the given indices in the
given order, and the unpassed fields (velocities, energies, temperature,
alchemical lambda) are absent. -/
def projectFrame (idx : List Nat) (f : Frame) : Frame :=
  { xyz := idx.map (fun i => f.xyz.getD i 0), time := f.time,
    cell_lengths := f.cell_lengths, cell_angles := f.cell_angles }

/-- Exit paths of `strip_water`, each carrying the derived (protein) store as
the call leaves it.  The two early no-ops return before
`HDF5TrajectoryFile(protein_filename, mode='a')` runs, so they carry the
untouched optional input store; a raise after the protein store was opened
carries the opened-but-unappended store. -/
inductive SWOut where
  | noopMissing : Option Store → SWOut
  | noopTooFew : Option Store → SWOut
  | fatal : String → Option Store → SWOut
  | noopLockstep : Store → SWOut
  | wrote : Store → SWOut
deriving DecidableEq, Repr

/-- Embedding of `strip_water` (fah.py lines 67-147).  `allatom = none`
models a missing `allatom_filename`; `protein0 = none` a not-yet-created
`protein_filename`.  The guards, the key detection, the four raises, the
lockstep no-op and the append path follow the source line by line. -/
def strip_water (allatom : Option Store) (protein0 : Option Store)
    (protein_atom_indices : List Nat) (min_num_frames : Nat) : SWOut :=
  match allatom with
  | none => SWOut.noopMissing protein0
  | some trj_allatom =>
    if trj_allatom.frames.length < min_num_frames then SWOut.noopTooFew protein0
    else
      match ledgerKeyOf trj_allatom with
      | none => SWOut.fatal "Cannot find processed files" protein0
      | some key =>
        let trj_protein :=
          openAppendInit protein0 key (subsetTop trj_allatom.topology protein_atom_indices)
        let n_frames_allatom := trj_allatom.frames.length
        let n_frames_protein := trj_protein.frames.length
        let n_files_allatom := trj_allatom.processed.length
        let n_files_protein := trj_protein.processed.length
        if n_frames_allatom < n_frames_protein then
          SWOut.fatal "Found more frames in protein trajectory than allatom trajectory"
            (some trj_protein)
        else if n_files_allatom < n_files_protein then
          SWOut.fatal "Found more filenames in protein trajectory than allatom trajectory"
            (some trj_protein)
        else if n_frames_protein = n_frames_allatom ∨ n_files_allatom = n_files_protein then
          if ¬ (n_frames_protein = n_frames_allatom ∧ n_files_allatom = n_files_protein) then
            SWOut.fatal "The trajectories must match in BOTH n_frames and n_filenames or NEITHER."
              (some trj_protein)
          else SWOut.noopLockstep trj_protein
        else
          SWOut.wrote
            { trj_protein with
              frames := trj_protein.frames ++
                (trj_allatom.frames.drop n_frames_protein).map
                  (projectFrame protein_atom_indices),
              processed := trj_protein.processed ++
                trj_allatom.processed.drop n_files_protein }

/-! ## Helper lemmas about the merge loop -/

/-- Events contributed by one newly merged unit: its frame writes, then its
single ledger append. -/
def blockEvents (b : String × List Frame) : List Event :=
  b.2.map (fun fr => Event.writeFrame b.1 (hdf5WriteFields fr)) ++ [Event.ledgerAppend b.1]

theorem runUnits_processed_mono (loader : String → Except String (List Frame)) :
    ∀ (fs : List String) (st : Store),
      ∃ t, (runUnits loader fs st).store.processed = st.processed ++ t := by
  intro fs
  induction fs with
  | nil => intro st; exact ⟨[], by simp [runUnits]⟩
  | cons f fs ih =>
    intro st
    by_cases hf : f ∈ st.processed
    · obtain ⟨t, ht⟩ := ih st
      exact ⟨t, by simp [runUnits, hf, ht]⟩
    · cases hl : loader f with
      | error e => exact ⟨[], by simp [runUnits, hf, hl]⟩
      | ok trj =>
        obtain ⟨t, ht⟩ := ih
          { st with frames := st.frames ++ trj.map hdf5WriteFields,
                    processed := st.processed ++ [f] }
        refine ⟨f :: t, ?_⟩
        simp only [runUnits, hf, hl]
        simpa [List.append_assoc] using ht

theorem runUnits_ledgerName (loader : String → Except String (List Frame)) :
    ∀ (fs : List String) (st : Store),
      (runUnits loader fs st).store.ledgerName = st.ledgerName := by
  intro fs
  induction fs with
  | nil => intro st; simp [runUnits]
  | cons f fs ih =>
    intro st
    by_cases hf : f ∈ st.processed
    · simp [runUnits, hf, ih st]
    · cases hl : loader f with
      | error e => simp [runUnits, hf, hl]
      | ok trj => simp [runUnits, hf, hl, ih]

theorem openAppendInit_ledgerName (output : Option Store) (key : String) (top : List Nat) :
    (openAppendInit output key top).ledgerName = key := by
  cases output with
  | none => rfl
  | some st =>
    by_cases h : st.ledgerName = key <;> simp [openAppendInit, h]

theorem openAppendInit_self (st : Store) (key : String) (top : List Nat)
    (h : st.ledgerName = key) : openAppendInit (some st) key top = st := by
  simp [openAppendInit, h]

theorem runUnits_blocks (loader : String → Except String (List Frame)) :
    ∀ (fs : List String) (st : Store),
      ∃ blocks : List (String × List Frame),
        (runUnits loader fs st).events = (blocks.map blockEvents).flatten ∧
        (runUnits loader fs st).store.processed = st.processed ++ blocks.map Prod.fst ∧
        (∀ b ∈ blocks, loader b.1 = Except.ok b.2 ∧ b.1 ∉ st.processed) ∧
        (blocks.map Prod.fst).Nodup ∧
        (blocks.map Prod.fst).Sublist fs := by
  intro fs
  induction fs with
  | nil =>
    intro st
    exact ⟨[], by simp [runUnits]⟩
  | cons f fs ih =>
    intro st
    by_cases hf : f ∈ st.processed
    · obtain ⟨blocks, he, hp, hb, hn, hs⟩ := ih st
      exact ⟨blocks, by simpa [runUnits, hf] using he,
        by simpa [runUnits, hf] using hp, hb, hn, hs.cons f⟩
    · cases hl : loader f with
      | error e =>
        exact ⟨[], by simp [runUnits, hf, hl]⟩
      | ok trj =>
        obtain ⟨blocks, he, hp, hb, hn, hs⟩ := ih
          { st with frames := st.frames ++ trj.map hdf5WriteFields,
                    processed := st.processed ++ [f] }
        refine ⟨(f, trj) :: blocks, ?_, ?_, ?_, ?_, ?_⟩
        · simp only [runUnits, hf, hl]
          simp [blockEvents, he]
        · simp only [runUnits, hf, hl]
          simpa [List.append_assoc] using hp
        · intro b hbmem
          rcases List.mem_cons.mp hbmem with rfl | hbmem
          · exact ⟨by simpa using hl, by simpa using hf⟩
          · obtain ⟨hok, hnotin⟩ := hb b hbmem
            refine ⟨hok, fun hmem => hnotin ?_⟩
            simp [hmem]
        · refine List.nodup_cons.mpr ⟨?_, hn⟩
          intro hmem
          simp only [List.mem_map] at hmem
          obtain ⟨b, hbmem, hfst⟩ := hmem
          have := (hb b hbmem).2
          exact this (by simp [hfst])
        · exact hs.cons₂ f

theorem runUnits_idem (loader : String → Except String (List Frame)) :
    ∀ (fs : List String) (st : Store),
      (runUnits loader fs ((runUnits loader fs st).store)).store =
        (runUnits loader fs st).store ∧
      (runUnits loader fs ((runUnits loader fs st).store)).err =
        (runUnits loader fs st).err := by
  intro fs
  induction fs with
  | nil => intro st; simp [runUnits]
  | cons f fs ih =>
    intro st
    by_cases hf : f ∈ st.processed
    · have hf' : f ∈ (runUnits loader fs st).store.processed := by
        obtain ⟨t, ht⟩ := runUnits_processed_mono loader fs st
        rw [ht]; exact List.mem_append_left t hf
      simpa [runUnits, hf, hf'] using ih st
    · cases hl : loader f with
      | error e =>
        simp [runUnits, hf, hl]
      | ok trj =>
        have hf' : f ∈ (runUnits loader fs
            { st with frames := st.frames ++ trj.map hdf5WriteFields,
                      processed := st.processed ++ [f] }).store.processed := by
          obtain ⟨t, ht⟩ := runUnits_processed_mono loader fs
            { st with frames := st.frames ++ trj.map hdf5WriteFields,
                      processed := st.processed ++ [f] }
          rw [ht]
          exact List.mem_append_left t (by simp)
        simpa [runUnits, hf, hl, hf'] using ih
          { st with frames := st.frames ++ trj.map hdf5WriteFields,
                    processed := st.processed ++ [f] }

theorem runUnits_err_spec (loader : String → Except String (List Frame)) :
    ∀ (fs : List String) (st : Store) (f : String) (e : String),
      (runUnits loader fs st).err = some (f, e) →
      loader f = Except.error e ∧
      f ∉ (runUnits loader fs st).store.processed ∧
      (∃ l0, (runUnits loader fs st).log = l0 ++ ["Processing " ++ f]) ∧
      ∃ pre post, fs = pre ++ f :: post ∧
        (runUnits loader fs st).store = (runUnits loader pre st).store ∧
        (runUnits loader pre st).err = none := by
  intro fs
  induction fs with
  | nil => intro st f e h; simp [runUnits] at h
  | cons g fs ih =>
    intro st f e h
    by_cases hg : g ∈ st.processed
    · have h' : (runUnits loader fs st).err = some (f, e) := by
        simpa [runUnits, hg] using h
      obtain ⟨hload, hnotin, ⟨l0, hlog⟩, pre, post, hfs, hst, herr⟩ := ih st f e h'
      refine ⟨hload, by simpa [runUnits, hg] using hnotin,
        ⟨("Already processed " ++ g) :: l0, by simp [runUnits, hg, hlog]⟩,
        g :: pre, post, by simp [hfs], ?_, ?_⟩
      · simpa [runUnits, hg] using hst
      · simpa [runUnits, hg] using herr
    · cases hl : loader g with
      | error e' =>
        have hge : g = f ∧ e' = e := by
          have := h
          simp [runUnits, hg, hl] at this
          exact ⟨this.1, this.2⟩
        obtain ⟨rfl, rfl⟩ := hge
        refine ⟨hl, by simpa [runUnits, hg, hl] using hg,
          ⟨[], by simp [runUnits, hg, hl]⟩, [], fs, rfl, ?_, ?_⟩
        · simp [runUnits, hg, hl]
        · simp [runUnits]
      | ok trj =>
        have h' : (runUnits loader fs
            { st with frames := st.frames ++ trj.map hdf5WriteFields,
                      processed := st.processed ++ [g] }).err = some (f, e) := by
          simpa [runUnits, hg, hl] using h
        obtain ⟨hload, hnotin, ⟨l0, hlog⟩, pre, post, hfs, hst, herr⟩ := ih _ f e h'
        refine ⟨hload, by simpa [runUnits, hg, hl] using hnotin,
          ⟨("Processing " ++ g) :: l0, by simp [runUnits, hg, hl, hlog]⟩,
          g :: pre, post, by simp [hfs], ?_, ?_⟩
        · simp only [runUnits, hg, hl]
          simpa using hst
        · simp only [runUnits, hg, hl]
          simpa using herr

/-! ## Claim theorems: merge side -/

/-- C5.  The `keynat` sort key realizes natural order: for every identifier
string the key equals the spec-side tokenization into maximal numeric runs
held as integer values and remaining characters (so under the element order
`tokLt` two numeric runs compare by integer value and non-numeric runs
compare character by character), and sorting the spec's example list with it
yields the naturally ordered list. -/
theorem keynat_natural_order :
    (∀ s : String, keynat s = specTokenize s) ∧
    pySorted keynatLt ["results-1", "results-9", "results-10", "results-2"] =
      ["results-1", "results-2", "results-9", "results-10"] :=
  ⟨keynat_eq_specTokenize, by decide⟩

/-- C4.  The event trace of the merge loop is a concatenation of per-unit
blocks, one block per newly merged unit in iteration order, where each block
is that unit's frame writes followed by its single ledger append
(`blockEvents`): every unit's frame writes happen strictly before its ledger
append, each merged unit is ledgered exactly once (the block labels are
nodup), and ledger appends are never reordered or batched across units
(events of different units never interleave inside a block). -/
theorem merge_frames_before_ledger (loader : String → Except String (List Frame))
    (fs : List String) (st : Store) :
    ∃ blocks : List (String × List Frame),
      (runUnits loader fs st).events = (blocks.map blockEvents).flatten ∧
      (∀ b ∈ blocks, loader b.1 = Except.ok b.2 ∧ b.1 ∉ st.processed) ∧
      (blocks.map Prod.fst).Nodup ∧
      (blocks.map Prod.fst).Sublist fs := by
  obtain ⟨blocks, he, _, hb, hn, hs⟩ := runUnits_blocks loader fs st
  exact ⟨blocks, he, hb, hn, hs⟩

/-- C6.  The ledger entries recorded by the merge loop are exactly the newly
merged units' identifier strings, verbatim: the final ledger is the old
ledger with a suffix appended whose entries form a subsequence of the input
unit list (hence each is byte-for-byte an input identifier, appended in merge
order), without duplicates, and none of them was previously ledgered. -/
theorem merge_ledger_entries_verbatim (loader : String → Except String (List Frame))
    (fs : List String) (st : Store) :
    ∃ news : List String,
      (runUnits loader fs st).store.processed = st.processed ++ news ∧
      news.Sublist fs ∧ news.Nodup ∧ ∀ u ∈ news, u ∉ st.processed := by
  obtain ⟨blocks, _, hp, hb, hn, hs⟩ := runUnits_blocks loader fs st
  refine ⟨blocks.map Prod.fst, hp, hs, hn, ?_⟩
  intro u hu
  simp only [List.mem_map] at hu
  obtain ⟨b, hbmem, rfl⟩ := hu
  exact (hb b hbmem).2

/-- C1.  Merge is idempotent: running `concatenate_core17` (and likewise
`concatenate_ocore`) twice in a row on the same inputs leaves the output
store — frames, ledger and all — identical to running it once, because every
unit ledgered by the first run is skipped by the second, and a unit on which
the loader fails fails identically again. -/
theorem merge_idempotent (loader : String → Except String (List Frame))
    (top : List Nat) (output : Option Store) :
    (∀ glob_results : List String,
      (concatenate_core17 glob_results loader top
          (concatenate_core17 glob_results loader top output).store).store =
        (concatenate_core17 glob_results loader top output).store) ∧
    (∀ (path : String) (listing : List String),
      (concatenate_ocore path listing loader top
          (concatenate_ocore path listing loader top output).store).store =
        (concatenate_ocore path listing loader top output).store) := by
  constructor
  · intro glob_results
    by_cases h : (pySorted keynatLt glob_results).length ≤ 0
    · simp [concatenate_core17, h]
    · simp only [concatenate_core17, h, if_false]
      rw [openAppendInit_self _ _ _
        (by rw [runUnits_ledgerName, openAppendInit_ledgerName])]
      exact congrArg some (runUnits_idem loader _ _).1
  · intro path listing
    by_cases h : pySorted (fun a b => pyInt a < pyInt b) listing = []
    · simp [concatenate_ocore, h]
    · have h' : ¬ ((pySorted (fun a b => pyInt a < pyInt b) listing).map
          (fun folder => path ++ "/" ++ folder)).length ≤ 0 := by
        simpa using h
      simp only [concatenate_ocore, h', if_false]
      rw [openAppendInit_self _ _ _
        (by rw [runUnits_ledgerName, openAppendInit_ledgerName])]
      exact congrArg some (runUnits_idem loader _ _).1

/-- C9.  When loading one unit's frames fails, `concatenate_core17` aborts:
the raised exception propagates out carrying the loader's error, the run's
last printed line is `Processing <unit>` (surfacing which unit failed), the
failed unit is not in the resulting ledger (so a later run retries it), and
the store is exactly the state after the units preceding the failing one —
no later unit was processed. -/
theorem merge_abort_on_load_failure (glob_results : List String)
    (loader : String → Except String (List Frame)) (top : List Nat)
    (output : Option Store) (f e : String)
    (h : (concatenate_core17 glob_results loader top output).err = some (f, e)) :
    loader f = Except.error e ∧
    (∃ s, (concatenate_core17 glob_results loader top output).store = some s ∧
      f ∉ s.processed) ∧
    (∃ l0, (concatenate_core17 glob_results loader top output).log =
      l0 ++ ["Processing " ++ f]) ∧
    ∃ pre post, pySorted keynatLt glob_results = pre ++ f :: post ∧
      (concatenate_core17 glob_results loader top output).store =
        some (runUnits loader pre
          (openAppendInit output "processed_filenames" top)).store ∧
      (runUnits loader pre (openAppendInit output "processed_filenames" top)).err =
        none := by
  by_cases hlen : (pySorted keynatLt glob_results).length ≤ 0
  · simp [concatenate_core17, hlen] at h
  · have h' : (runUnits loader (pySorted keynatLt glob_results)
        (openAppendInit output "processed_filenames" top)).err = some (f, e) := by
      simpa [concatenate_core17, hlen] using h
    obtain ⟨hload, hnotin, hlog, pre, post, hfs, hst, herr⟩ :=
      runUnits_err_spec loader _ _ f e h'
    refine ⟨hload, ⟨_, by simp [concatenate_core17, hlen], hnotin⟩,
      by simpa [concatenate_core17, hlen] using hlog,
      pre, post, hfs, by simp [concatenate_core17, hlen, hst], herr⟩

/-- Loader used by the abort witness: every archive is damaged. -/
def failLoader : String → Except String (List Frame) :=
  fun _ => Except.error "truncated archive"

/-- Witness for C9 at a concrete input: one discovered unit whose load
fails. -/
theorem merge_abort_on_load_failure_witness :
    failLoader "results-1" = Except.error "truncated archive" ∧
    (∃ s, (concatenate_core17 ["results-1"] failLoader [] none).store = some s ∧
      "results-1" ∉ s.processed) ∧
    (∃ l0, (concatenate_core17 ["results-1"] failLoader [] none).log =
      l0 ++ ["Processing " ++ "results-1"]) ∧
    ∃ pre post, pySorted keynatLt ["results-1"] = pre ++ "results-1" :: post ∧
      (concatenate_core17 ["results-1"] failLoader [] none).store =
        some (runUnits failLoader pre
          (openAppendInit none "processed_filenames" [])).store ∧
      (runUnits failLoader pre (openAppendInit none "processed_filenames" [])).err =
        none :=
  merge_abort_on_load_failure ["results-1"] failLoader [] none
    "results-1" "truncated archive" (by decide)

/-- C10.  When the discovered unit list is empty, each of the three
concatenation functions returns immediately: the output store is left exactly
as it was (an absent file is not created), nothing is printed beyond the
guard, no store operation happens and no error is raised. -/
theorem merge_empty_discovery_noop (loader : String → Except String (List Frame))
    (top : List Nat) (output : Option Store) (path : String) :
    concatenate_core17 [] loader top output =
      { store := output, log := [], events := [], err := none } ∧
    concatenate_core17_filenames [] loader top output =
      { store := output, log := [], events := [], err := none } ∧
    concatenate_ocore path [] loader top output =
      { store := output, log := [], events := [], err := none } :=
  ⟨rfl, rfl, rfl⟩

/-! ## Claim theorems: subset derivation side -/

/-- C8.  The two guards of `strip_water`, checked in this order, return
normally as no-ops without ever opening (or creating) the derived store:
first a missing full store, then a full store with fewer than
`min_num_frames` frames.  The returned outcome carries the derived store
argument untouched — in particular an absent derived store stays absent. -/
theorem strip_water_guard_noops (protein0 : Option Store) (idx : List Nat) (m : Nat) :
    strip_water none protein0 idx m = SWOut.noopMissing protein0 ∧
    ∀ trjA : Store, trjA.frames.length < m →
      strip_water (some trjA) protein0 idx m = SWOut.noopTooFew protein0 := by
  refine ⟨rfl, fun trjA h => ?_⟩
  simp [strip_water, h]

/-- Full store used by the strip_water witnesses: two frames, two ledger
entries, a Core17-style ledger node. -/
def fullStore2 : Store :=
  { frames :=
      [{ xyz := [10, 11, 12], time := 0, cell_lengths := 3, cell_angles := 90 },
       { xyz := [20, 21, 22], time := 1, cell_lengths := 3, cell_angles := 90 }],
    processed := ["results-0", "results-1"],
    ledgerName := "processed_filenames",
    topology := [5, 6, 7] }

/-- Witness for C8: a concrete full store with 1 frame is below the
threshold 5, so the call is a no-op that leaves the absent derived store
absent. -/
theorem strip_water_guard_noops_witness :
    strip_water (some fullStore2) none [0] 5 = SWOut.noopTooFew none :=
  (strip_water_guard_noops none [0] 5).2 fullStore2 (by decide)

/-- C3.  With the full store present, large enough and carrying a recognized
ledger key, `strip_water` raises (returning a `SWOut.fatal` outcome whose
carried derived store is the input store unchanged — no frame and no ledger
entry was appended to either store, the full store being read-only throughout)
whenever the derived store is ahead on frames, ahead on ledger entries, or
exactly one of the two count equalities holds; and when both equalities hold
it returns as the lockstep no-op. -/
theorem strip_water_fatal_off_lockstep (trjA trjP : Store) (idx : List Nat)
    (m : Nat) (key : String)
    (hm : m ≤ trjA.frames.length)
    (hkey : ledgerKeyOf trjA = some key)
    (hP : trjP.ledgerName = key) :
    ((trjA.frames.length < trjP.frames.length ∨
      trjA.processed.length < trjP.processed.length ∨
      ((trjP.frames.length = trjA.frames.length ∨
        trjA.processed.length = trjP.processed.length) ∧
       ¬(trjP.frames.length = trjA.frames.length ∧
         trjA.processed.length = trjP.processed.length))) →
      ∃ msg, strip_water (some trjA) (some trjP) idx m = SWOut.fatal msg (some trjP)) ∧
    ((trjP.frames.length = trjA.frames.length ∧
      trjA.processed.length = trjP.processed.length) →
      strip_water (some trjA) (some trjP) idx m = SWOut.noopLockstep trjP) := by
  have hnm : ¬ (trjA.frames.length < m) := not_lt.mpr hm
  have hopen : openAppendInit (some trjP) key (subsetTop trjA.topology idx) = trjP :=
    openAppendInit_self _ _ _ hP
  constructor
  · intro hcond
    simp only [strip_water, hnm, if_false, hkey, hopen]
    rcases hcond with h | h | ⟨hor, hnand⟩
    · rw [if_pos h]
      exact ⟨_, rfl⟩
    · by_cases hA : trjA.frames.length < trjP.frames.length
      · rw [if_pos hA]
        exact ⟨_, rfl⟩
      · rw [if_neg hA, if_pos h]
        exact ⟨_, rfl⟩
    · by_cases hA : trjA.frames.length < trjP.frames.length
      · rw [if_pos hA]
        exact ⟨_, rfl⟩
      · by_cases hB : trjA.processed.length < trjP.processed.length
        · rw [if_neg hA, if_pos hB]
          exact ⟨_, rfl⟩
        · rw [if_neg hA, if_neg hB, if_pos hor, if_pos hnand]
          exact ⟨_, rfl⟩
  · rintro ⟨h1, h2⟩
    simp only [strip_water, hnm, if_false, hkey, hopen]
    rw [if_neg (by omega : ¬ trjA.frames.length < trjP.frames.length),
      if_neg (by omega : ¬ trjA.processed.length < trjP.processed.length),
      if_pos (Or.inl h1),
      if_neg (show ¬¬(trjP.frames.length = trjA.frames.length ∧
          trjA.processed.length = trjP.processed.length) from
        fun hx => hx ⟨h1, h2⟩)]

/-- Derived store for the C3 witness: same frame count as `fullStore2` but a
shorter ledger, so exactly one of the two equalities holds. -/
def proteinStoreOff : Store :=
  { frames :=
      [{ xyz := [10], time := 0, cell_lengths := 3, cell_angles := 90 },
       { xyz := [20], time := 1, cell_lengths := 3, cell_angles := 90 }],
    processed := ["results-0"],
    ledgerName := "processed_filenames",
    topology := [5] }

/-- Witness for C3: concrete off-lockstep stores (frame counts equal, ledger
counts not) make `strip_water` raise without touching the derived store. -/
theorem strip_water_fatal_off_lockstep_witness :
    ∃ msg, strip_water (some fullStore2) (some proteinStoreOff) [0] 1 =
      SWOut.fatal msg (some proteinStoreOff) :=
  (strip_water_fatal_off_lockstep fullStore2 proteinStoreOff [0] 1
    "processed_filenames" (by decide) (by decide) (by decide)).1 (by decide)

/-- C2.  When `strip_water` takes its append path (full store present, large
enough, recognized key, and the derived store strictly behind on both
counts), it returns successfully and the resulting derived store has exactly
the full store's frame count, exactly the full store's ledger length, and its
ledger is the old derived ledger plus the full store's ledger entries from
offset `derivedUnitCount` onward, copied verbatim and in original order. -/
theorem strip_water_success_lockstep (trjA trjP : Store) (idx : List Nat)
    (m : Nat) (key : String)
    (hm : m ≤ trjA.frames.length)
    (hkey : ledgerKeyOf trjA = some key)
    (hP : trjP.ledgerName = key)
    (hf : trjP.frames.length < trjA.frames.length)
    (hu : trjP.processed.length < trjA.processed.length) :
    ∃ st, strip_water (some trjA) (some trjP) idx m = SWOut.wrote st ∧
      st.frames.length = trjA.frames.length ∧
      st.processed.length = trjA.processed.length ∧
      st.processed = trjP.processed ++ trjA.processed.drop trjP.processed.length := by
  have hnm : ¬ (trjA.frames.length < m) := not_lt.mpr hm
  have hopen : openAppendInit (some trjP) key (subsetTop trjA.topology idx) = trjP :=
    openAppendInit_self _ _ _ hP
  have hfr : (trjP.frames ++ (trjA.frames.drop trjP.frames.length).map
      (projectFrame idx)).length = trjA.frames.length := by
    rw [List.length_append, List.length_map, List.length_drop]
    omega
  have hpr : (trjP.processed ++ trjA.processed.drop trjP.processed.length).length =
      trjA.processed.length := by
    rw [List.length_append, List.length_drop]
    omega
  refine ⟨{ trjP with
      frames := trjP.frames ++ (trjA.frames.drop trjP.frames.length).map
        (projectFrame idx),
      processed := trjP.processed ++ trjA.processed.drop trjP.processed.length },
    ?_, hfr, hpr, rfl⟩
  simp only [strip_water, hnm, if_false, hkey, hopen]
  rw [if_neg (by omega : ¬ trjA.frames.length < trjP.frames.length),
    if_neg (by omega : ¬ trjA.processed.length < trjP.processed.length),
    if_neg (show ¬(trjP.frames.length = trjA.frames.length ∨
        trjA.processed.length = trjP.processed.length) by
      rintro (h | h) <;> omega)]

/-- Empty derived store for the C2 and C7 witnesses. -/
def proteinStoreEmpty : Store :=
  { frames := [], processed := [], ledgerName := "processed_filenames",
    topology := [] }

/-- Witness for C2: deriving from scratch out of the concrete two-frame full
store yields a derived store in full lockstep with it. -/
theorem strip_water_success_lockstep_witness :
    ∃ st, strip_water (some fullStore2) (some proteinStoreEmpty) [0] 1 =
        SWOut.wrote st ∧
      st.frames.length = fullStore2.frames.length ∧
      st.processed.length = fullStore2.processed.length ∧
      st.processed = proteinStoreEmpty.processed ++
        fullStore2.processed.drop proteinStoreEmpty.processed.length :=
  strip_water_success_lockstep fullStore2 proteinStoreEmpty [0] 1
    "processed_filenames" (by decide) (by decide) (by decide) (by decide) (by decide)

/-- C7.  Every frame the append path of `strip_water` adds to the derived
store carries only coordinates, time and unit-cell lengths/angles — the
velocities, energies, temperature and alchemical-lambda fields are absent —
and its coordinates are the corresponding full-store frame's coordinates
gathered at `protein_atom_indices` in the given order, so its coordinate
width equals the number of atom indices. -/
theorem strip_water_frame_projection (trjA trjP : Store) (idx : List Nat)
    (m : Nat) (key : String)
    (hm : m ≤ trjA.frames.length)
    (hkey : ledgerKeyOf trjA = some key)
    (hP : trjP.ledgerName = key)
    (hf : trjP.frames.length < trjA.frames.length)
    (hu : trjP.processed.length < trjA.processed.length) :
    ∃ st, strip_water (some trjA) (some trjP) idx m = SWOut.wrote st ∧
      ∀ j, trjP.frames.length ≤ j → j < trjA.frames.length →
        (st.frames.getD j default).xyz =
          idx.map (fun i => (trjA.frames.getD j default).xyz.getD i 0) ∧
        (st.frames.getD j default).xyz.length = idx.length ∧
        (st.frames.getD j default).time = (trjA.frames.getD j default).time ∧
        (st.frames.getD j default).cell_lengths =
          (trjA.frames.getD j default).cell_lengths ∧
        (st.frames.getD j default).cell_angles =
          (trjA.frames.getD j default).cell_angles ∧
        (st.frames.getD j default).velocities = none ∧
        (st.frames.getD j default).kineticEnergy = none ∧
        (st.frames.getD j default).potentialEnergy = none ∧
        (st.frames.getD j default).temperature = none ∧
        (st.frames.getD j default).alchemicalLambda = none := by
  have hnm : ¬ (trjA.frames.length < m) := not_lt.mpr hm
  have hopen : openAppendInit (some trjP) key (subsetTop trjA.topology idx) = trjP :=
    openAppendInit_self _ _ _ hP
  refine ⟨{ trjP with
      frames := trjP.frames ++ (trjA.frames.drop trjP.frames.length).map
        (projectFrame idx),
      processed := trjP.processed ++ trjA.processed.drop trjP.processed.length },
    ?_, ?_⟩
  · simp only [strip_water, hnm, if_false, hkey, hopen]
    rw [if_neg (by omega : ¬ trjA.frames.length < trjP.frames.length),
      if_neg (by omega : ¬ trjA.processed.length < trjP.processed.length),
      if_neg (show ¬(trjP.frames.length = trjA.frames.length ∨
          trjA.processed.length = trjP.processed.length) by
        rintro (h | h) <;> omega)]
  · intro j hj1 hj2
    have hj3 : trjP.frames.length + (j - trjP.frames.length) = j := by omega
    have hget :
        ({ trjP with
            frames := trjP.frames ++ (trjA.frames.drop trjP.frames.length).map
              (projectFrame idx),
            processed := trjP.processed ++
              trjA.processed.drop trjP.processed.length } : Store).frames.getD
            j default =
          projectFrame idx (trjA.frames.getD j default) := by
      show (trjP.frames ++ (trjA.frames.drop trjP.frames.length).map
          (projectFrame idx)).getD j default = _
      rw [List.getD_eq_getElem?_getD, List.getElem?_append_right hj1,
        List.getElem?_map, List.getElem?_drop, hj3,
        List.getElem?_eq_getElem hj2, List.getD_eq_getElem?_getD,
        List.getElem?_eq_getElem hj2]
      rfl
    rw [hget]
    exact ⟨rfl, by simp [projectFrame], rfl, rfl, rfl, rfl, rfl, rfl, rfl, rfl⟩

/-- Witness for C7: a concrete two-index gather out of the concrete full
store, checked on the first derived frame. -/
theorem strip_water_frame_projection_witness :
    ∃ st, strip_water (some fullStore2) (some proteinStoreEmpty) [2, 0] 1 =
        SWOut.wrote st ∧
      ∀ j, proteinStoreEmpty.frames.length ≤ j → j < fullStore2.frames.length →
        (st.frames.getD j default).xyz =
          [2, 0].map (fun i => (fullStore2.frames.getD j default).xyz.getD i 0) ∧
        (st.frames.getD j default).xyz.length = [2, 0].length ∧
        (st.frames.getD j default).time = (fullStore2.frames.getD j default).time ∧
        (st.frames.getD j default).cell_lengths =
          (fullStore2.frames.getD j default).cell_lengths ∧
        (st.frames.getD j default).cell_angles =
          (fullStore2.frames.getD j default).cell_angles ∧
        (st.frames.getD j default).velocities = none ∧
        (st.frames.getD j default).kineticEnergy = none ∧
        (st.frames.getD j default).potentialEnergy = none ∧
        (st.frames.getD j default).temperature = none ∧
        (st.frames.getD j default).alchemicalLambda = none :=
  strip_water_frame_projection fullStore2 proteinStoreEmpty [2, 0] 1
    "processed_filenames" (by decide) (by decide) (by decide) (by decide) (by decide)

end FAHMunge
